import Mathlib

/-!
Verification of the gollum `producer.File` plugin (rotating, batched file
sink with asynchronous compression and retention pruning).

Each definition in this file is a shallow embedding of a function of
`src/log/Metric.go` (the concatenated source containing `producer/file.go`);
doc comments give the source lines embedded. I/O outcomes (stat results,
open/remove failures, copy errors) are passed in explicitly as parameters,
so every definition is executable and decidable on concrete inputs.
-/

namespace Gollum

/-! ## Messages (external `core.Message`)

A message carries an opaque payload and a stream identifier.  `objId`
models the identity of the message object (its allocation): `Clone`
produces a fresh object with equal payload and stream id, so a clone is
never the same object as the original. -/

structure Message where
  data : List Nat
  streamID : Nat
  objId : Nat
  deriving DecidableEq, Repr

/-- `core.Message.Clone`: a copy with equal contents in a fresh allocation. -/
def Message.clone (msg : Message) (freshId : Nat) : Message :=
  { msg with objId := freshId }

/-! ## File.writeMessage (Metric.go lines 406-417)

```go
func (prod *File) writeMessage(msg *core.Message) {
    streamMsg := msg.Clone()
    state, err := prod.getFileState(streamMsg.GetStreamID(), false)
    if err != nil {
        prod.Logger.Error("Write error: ", err)
        prod.TryFallback(msg)
        return // ### return, fallback ###
    }
    state.batch.AppendOrFlush(msg, state.flush, prod.IsActiveOrStopping, prod.TryFallback)
}
```

The outcome records which message object is routed where.  `stateOk`
abstracts `getFileState` succeeding for a given stream id; `freshId` is
the allocation chosen for the clone. -/

inductive WriteOutcome where
  | fallback (m : Message)
  | appended (m : Message)
  deriving DecidableEq, Repr

def writeMessage (msg : Message) (freshId : Nat) (stateOk : Nat → Bool) : WriteOutcome :=
  let streamMsg := msg.clone freshId
  if stateOk streamMsg.streamID then
    WriteOutcome.appended msg
  else
    WriteOutcome.fallback msg

/-! ## Rotation writer swap in File.getFileState (Metric.go lines 340-377)

```go
// Close existing log
if state.writer != nil {
    currentLog := state.writer
    state.writer = nil
    go currentLog.Close()
}
// (Re)open logfile
stateFile, err := os.OpenFile(logFilePath, openFlags, prod.filePermissions)
if err != nil {
    return state, err // ### return error ###
}
state.writer = prod.newFileStateWriterDisk(stateFile)
```

The old writer is detached (and its close scheduled) *before* the open of
the new file is attempted.  `openResult` is the outcome of `os.OpenFile`:
`none` = error, `some w` = the newly opened writer. -/

structure FileState where
  writer : Option Nat
  deriving DecidableEq, Repr

def rotateReopen (state : FileState) (openResult : Option Nat) :
    FileState × Bool :=
  let detached : FileState := { state with writer := none }
  match openResult with
  | none => (detached, true)
  | some w => ({ detached with writer := some w }, false)

/-! ## fileStateWriterDisk.compressAndCloseLog (Metric.go lines 498-546)

```go
targetFile, err := os.OpenFile(targetFileName, ...O_TRUNC..., 0666)
if err != nil { w.file.Close(); return err }
w.file.Seek(0, 0)
targetWriter := gzip.NewWriter(targetFile)
for err == nil { _, err = io.CopyN(targetWriter, w.file, 1<<20); spin.Yield() }
// Cleanup
w.file.Close()
targetWriter.Close()
targetFile.Close()
if err != nil && err != io.EOF {
    err = os.Remove(targetFileName)
    if err != nil { log }
    return err
}
err = os.Remove(sourceFileName)
if err != nil { log; return err }
return nil
```

The copy loop runs until `err != nil`; `io.CopyN` reports `io.EOF` when
the source is exhausted, so the loop exits either with `io.EOF` (success)
or some other error.  Error values are modelled as `Nat` codes; `Option
Nat` is a Go `error` (`none` = nil).  The outcome records the order of
close calls, which files remain on disk, and the returned error. -/

inductive CopyOutcome where
  | eofReached
  | failed (e : Nat)
  deriving DecidableEq, Repr

inductive CloseEvent where
  | closeSource
  | closeGzipWriter
  | closeTarget
  deriving DecidableEq, Repr

structure CompressOutcome where
  closes : List CloseEvent
  srcExists : Bool
  gzExists : Bool
  ret : Option Nat
  deriving DecidableEq, Repr

def compressAndCloseLog (openErr : Option Nat) (copy : CopyOutcome)
    (removeTargetErr removeSourceErr : Option Nat) : CompressOutcome :=
  match openErr with
  | some e =>
      { closes := [CloseEvent.closeSource]
        srcExists := true, gzExists := false, ret := some e }
  | none =>
      let closes :=
        [CloseEvent.closeSource, CloseEvent.closeGzipWriter, CloseEvent.closeTarget]
      match copy with
      | CopyOutcome.failed _ =>
          match removeTargetErr with
          | none =>
              { closes := closes, srcExists := true, gzExists := false, ret := none }
          | some re =>
              { closes := closes, srcExists := true, gzExists := true, ret := some re }
      | CopyOutcome.eofReached =>
          match removeSourceErr with
          | none =>
              { closes := closes, srcExists := false, gzExists := true, ret := none }
          | some re =>
              { closes := closes, srcExists := true, gzExists := true, ret := some re }

/-! ## Rotated-filename counter scan in File.getFileState (Metric.go lines 302-336)

```go
signature := fmt.Sprintf("%s_%s", fileName, timestamp)
maxSuffix := uint64(0)
files, _ := ioutil.ReadDir(fileDir)
for _, file := range files {
    if strings.HasPrefix(file.Name(), signature) {
        counter := uint64(0)
        if len(file.Name()) > len(signature) {
            counter, _ = tstrings.Btoi([]byte(file.Name()[len(signature)+1:]))
        }
        if maxSuffix <= counter { maxSuffix = counter + 1 }
    }
}
if maxSuffix == 0 {
    logFileName = fmt.Sprintf("%s%s", signature, fileExt)
} else {
    logFileName = fmt.Sprintf(formatString, signature, int(maxSuffix), fileExt)
}
```

`tstrings.Btoi` (external tgo library) parses the leading run of decimal
digits of a byte slice and stops at the first non-digit, yielding 0 when
the slice starts with a non-digit; it accumulates in a `uint64`
(`number = number*10 + parsed`), so the value wraps modulo 2^64.
`counter` and `maxSuffix` are `uint64` as well, so `counter + 1` also
wraps, and line 334 renders `int(maxSuffix)`, a reinterpretation of the
`uint64` as a signed `int64`.  File names are `List Char`. -/

def U64 : Nat := 2 ^ 64

def btoiAux : List Char → Nat → Nat
  | [], acc => acc
  | c :: cs, acc =>
      if c.isDigit then btoiAux cs ((acc * 10 + (c.toNat - 48)) % U64) else acc

def btoi (cs : List Char) : Nat := btoiAux cs 0

/-- The counter the scan attributes to one directory entry `name`:
0 when the name is exactly the signature, otherwise the digits parsed
after skipping one separator character past the signature. -/
def fileCounter (signature name : List Char) : Nat :=
  if signature.length < name.length then
    btoi (name.drop (signature.length + 1))
  else 0

/-- The `maxSuffix` loop of `getFileState`, fold over the directory
listing; the accumulator is a `uint64`, so `counter + 1` wraps. -/
def maxSuffixLoop (signature : List Char) : List (List Char) → Nat → Nat
  | [], acc => acc
  | name :: rest, acc =>
      if signature.isPrefixOf name then
        let counter := fileCounter signature name
        maxSuffixLoop signature rest
          (if acc ≤ counter then (counter + 1) % U64 else acc)
      else
        maxSuffixLoop signature rest acc

def maxSuffix (signature : List Char) (files : List (List Char)) : Nat :=
  maxSuffixLoop signature files 0

/-- Go `int(maxSuffix)` (line 334): the `uint64` value reinterpreted as a
signed `int64`. -/
def toInt64 (n : Nat) : Int :=
  if n < 2 ^ 63 then (n : Int) else (n : Int) - 2 ^ 64

/-- The structure of the chosen rotated filename: `plain` is
`signature ++ ext` (no counter component), `counted k` is
`signature ++ "_" ++ pad(k) ++ ext` with `k = int(maxSuffix)`. -/
inductive RotName where
  | plain
  | counted (k : Int)
  deriving DecidableEq, Repr

def chooseRotName (signature : List Char) (files : List (List Char)) : RotName :=
  let ms := maxSuffix signature files
  if ms = 0 then RotName.plain else RotName.counted (toInt64 ms)

/-- The maximum counter carried by the directory entries sharing the
signature prefix (0 when none do): the reference value the claim compares
the chosen counter against. -/
def maxMatchingCounter (signature : List Char) (files : List (List Char)) : Nat :=
  ((files.filter (fun n => signature.isPrefixOf n)).map
    (fun n => fileCounter signature n)).foldr max 0

/-! ## filePruner (Metric.go lines 550-653)

A directory entry as `tio.ListFilesByDateMatching` returns it: name,
size, modification time.  Listings handed to the pruner are sorted by
modification time ascending.  `removeFails name` tells whether
`os.Remove` fails for that file (failures are logged and the sweep
continues); a prune step returns the files still on disk afterwards. -/

structure FileInfo where
  name : List Char
  size : Int
  modTime : Int
  deriving DecidableEq, Repr

/-- `filePruner.pruneByHour` (lines 582-601): the loop deletes the longest
prefix of the (ascending) listing whose modification time is before
`pruneDate`, attempting each removal. -/
def pruneByHour (removeFails : List Char → Bool) (files : List FileInfo)
    (pruneDate : Int) : List FileInfo :=
  (files.takeWhile (fun f => f.modTime < pruneDate)).filter
      (fun f => removeFails f.name)
    ++ files.dropWhile (fun f => f.modTime < pruneDate)

/-- `filePruner.pruneByCount` (lines 603-625):
`numFilesToPrune := len(files) - count`; if `< 1` nothing happens,
otherwise the first `numFilesToPrune` (oldest) entries are removed. -/
def pruneByCount (removeFails : List Char → Bool) (files : List FileInfo)
    (count : Int) : List FileInfo :=
  let numFilesToPrune : Int := (files.length : Int) - count
  if numFilesToPrune < 1 then files
  else
    (files.take numFilesToPrune.toNat).filter (fun f => removeFails f.name)
      ++ files.drop numFilesToPrune.toNat

/-- `filePruner.pruneToSize` (lines 627-653): sum all sizes, then walk
oldest-first removing files until the running total is ≤ `maxSize`;
a failed removal leaves the file and the total unchanged. -/
def pruneToSizeLoop (removeFails : List Char → Bool) :
    List FileInfo → Int → Int → List FileInfo
  | [], _, _ => []
  | f :: rest, total, maxSize =>
      if total ≤ maxSize then f :: rest
      else if removeFails f.name then
        f :: pruneToSizeLoop removeFails rest total maxSize
      else
        pruneToSizeLoop removeFails rest (total - f.size) maxSize

def pruneToSize (removeFails : List Char → Bool) (files : List FileInfo)
    (maxSize : Int) : List FileInfo :=
  pruneToSizeLoop removeFails files ((files.map (·.size)).sum) maxSize

structure FilePruner where
  pruneCount : Int
  pruneHours : Int
  pruneSize : Int
  deriving DecidableEq, Repr

/-- `filePruner.Prune` (lines 570-580): apply hour, count, size policies in
that fixed order, each only when its knob is > 0.  `pruneDate` stands for
`now - pruneHours*time.Hour`. -/
def filePrunerPrune (p : FilePruner) (removeFails : List Char → Bool)
    (files : List FileInfo) (pruneDate : Int) : List FileInfo :=
  let fs1 := if p.pruneHours > 0 then pruneByHour removeFails files pruneDate else files
  let fs2 := if p.pruneCount > 0 then pruneByCount removeFails fs1 p.pruneCount else fs1
  if p.pruneSize > 0 then pruneToSize removeFails fs2 p.pruneSize else fs2

/-- `filePruner.Configure` (lines 559-567):

```go
if pruner.pruneSize > 0 && pruner.rotate.sizeByte > 0 {
    pruner.pruneSize -= pruner.rotate.sizeByte >> 20
    if pruner.pruneSize <= 0 {
        pruner.pruneCount = 1
        pruner.pruneSize = 0
    }
}
```

Go `>> 20` on a positive int64 is floor division by 2^20.  The result is
the `(pruneCount, pruneSize)` pair after configuration. -/
def filePrunerConfigure (pruneCount pruneSize sizeByte : Int) : Int × Int :=
  if pruneSize > 0 ∧ sizeByte > 0 then
    let ps := pruneSize - sizeByte / 2 ^ 20
    if ps ≤ 0 then (1, 0) else (pruneCount, ps)
  else (pruneCount, pruneSize)

/-! ## fileStateWriterDisk stat caching (Metric.go lines 452-496)

```go
func (w *fileStateWriterDisk) Size() int64 {
    stats, err := w.getStats()
    if err != nil { return 0 }
    return stats.Size()
}
func (w *fileStateWriterDisk) IsAccessible() bool {
    _, err := w.getStats()
    return err == nil
}
func (w *fileStateWriterDisk) getStats() (os.FileInfo, error) {
    if w.stats != nil { return w.stats, nil }
    stats, err := w.file.Stat()
    if err != nil { return nil, err }
    w.stats = stats
    return w.stats, nil
}
```

`cachedStats` is the `stats` field (the cached `os.FileInfo`, reduced to
its size).  `statResult` is the outcome `w.file.Stat()` would produce at
the moment of the call: `none` = error, `some s` = a FileInfo of size
`s` (the file's size on disk right now). -/

structure DiskWriter where
  cachedStats : Option Int
  deriving DecidableEq, Repr

def getStats (w : DiskWriter) (statResult : Option Int) :
    Option Int × DiskWriter :=
  match w.cachedStats with
  | some s => (some s, w)
  | none =>
      match statResult with
      | none => (none, w)
      | some s => (some s, { w with cachedStats := some s })

def diskWriterSize (w : DiskWriter) (statResult : Option Int) :
    Int × DiskWriter :=
  match getStats w statResult with
  | (none, w') => (0, w')
  | (some s, w') => (s, w')

def isAccessible (w : DiskWriter) (statResult : Option Int) :
    Bool × DiskWriter :=
  match getStats w statResult with
  | (none, w') => (false, w')
  | (some _, w') => (true, w')

/-- The values returned by a sequence of `Size()` calls, threading the
writer state; the i-th element of `statResults` is what `file.Stat()`
would report at the i-th call. -/
def sizeCalls (w : DiskWriter) : List (Option Int) → List Int
  | [] => []
  | r :: rs =>
      let p := diskWriterSize w r
      p.1 :: sizeCalls p.2 rs

/-! ## File.Configure (Metric.go lines 219-248)

The `flushTimeout` field carries the struct tag
`config:"FlushTimeoutSec" default:"5"` (line 204): when the option is
absent from the configuration the binder stores 5 seconds. -/

def configuredFlushTimeoutSec (opt : Option Nat) : Nat :=
  opt.getD 5

/-! The `Rotation/At` fragment of `Configure` (lines 237-247):

```go
rotateAt := conf.GetString("Rotation/At", "")
prod.rotate.atHour = -1
prod.rotate.atMinute = -1
if rotateAt != "" {
    parts := strings.Split(rotateAt, ":")
    rotateAtHour, _ := strconv.ParseInt(parts[0], 10, 8)
    rotateAtMin, _ := strconv.ParseInt(parts[1], 10, 8)
    prod.rotate.atHour = int(rotateAtHour)
    prod.rotate.atMinute = int(rotateAtMin)
}
```

`strings.Split(s, ":")` cuts `s` at every `':'`; with no `':'` present it
returns the one-element slice `[s]`, and `parts[1]` then panics with an
index-out-of-range runtime error, modelled as `none`. -/

def splitOnColonAux : List Char → List Char → List (List Char)
  | [], acc => [acc.reverse]
  | c :: cs, acc =>
      if c = ':' then acc.reverse :: splitOnColonAux cs []
      else splitOnColonAux cs (c :: acc)

def splitOnColon (s : List Char) : List (List Char) :=
  splitOnColonAux s []

def allDigits (s : List Char) : Bool :=
  s.all (·.isDigit)

/-- The exact decimal value of a digit string.  `strconv.ParseInt` does
not wrap: it detects out-of-range values and reports `ErrRange`, so its
model needs the unbounded value to clamp against. -/
def decimalValueAux : List Char → Nat → Nat
  | [], acc => acc
  | c :: cs, acc => decimalValueAux cs (acc * 10 + (c.toNat - 48))

def digitsToNat (s : List Char) : Nat := decimalValueAux s 0

/-- `strconv.ParseInt(s, 10, 8)` with the error discarded: 0 on a syntax
error, the value clamped to the int8 range on a range error. -/
def parseInt8 (s : List Char) : Int :=
  match s with
  | [] => 0
  | '+' :: rest =>
      if rest ≠ [] ∧ allDigits rest then min (digitsToNat rest : Int) 127 else 0
  | '-' :: rest =>
      if rest ≠ [] ∧ allDigits rest then max (-(digitsToNat rest : Int)) (-128) else 0
  | _ =>
      if allDigits s then min (digitsToNat s : Int) 127 else 0

/-- The `(atHour, atMinute)` pair `Configure` produces for a given
`Rotation/At` string; `none` is the index-out-of-range panic raised when
`parts` has fewer than two elements. -/
def configureRotateAt (rotateAt : List Char) : Option (Int × Int) :=
  if rotateAt = [] then some (-1, -1)
  else
    match splitOnColon rotateAt with
    | p0 :: p1 :: _ => some (parseInt8 p0, parseInt8 p1)
    | _ => none

/-! ## Theorems -/

/-- C1: the claim states that `writeMessage` appends a clone of `msg` to the
destination's batch.  The source (line 416) passes the original `msg` to
`AppendOrFlush`; the clone `streamMsg` is used only to read the stream id.
Evaluated at a concrete message: with `getFileState` succeeding, the
appended message is the original object, while the clone is a distinct
object. -/
theorem writeMessage_appends_original_not_clone :
    writeMessage ⟨[1], 5, 0⟩ 1 (fun _ => true)
      = WriteOutcome.appended ⟨[1], 5, 0⟩ ∧
    Message.clone ⟨[1], 5, 0⟩ 1 ≠ ⟨[1], 5, 0⟩ := by
  decide

/-- C2, counterexample: with an open writer (id 7) and a failing open of the
new file, `getFileState` returns the error with `state.writer = nil` — the
previous writer was detached and closed before the open was attempted, so
it is not kept. -/
theorem rotateReopen_drops_old_writer_on_open_failure :
    (rotateReopen ⟨some 7⟩ none).1.writer ≠ some 7 ∧
    (rotateReopen ⟨some 7⟩ none).1.writer = none ∧
    (rotateReopen ⟨some 7⟩ none).2 = true := by
  decide

/-- C2, amended: during rotation the old writer is detached (and its close
scheduled) before the new open is attempted; if the open fails the state
holds no writer and the error is returned, and if it succeeds the state
holds the new writer. -/
theorem rotateReopen_detaches_before_open (state : FileState) :
    (rotateReopen state none).1.writer = none ∧
    (rotateReopen state none).2 = true ∧
    ∀ w, (rotateReopen state (some w)).1.writer = some w ∧
      (rotateReopen state (some w)).2 = false := by
  refine ⟨rfl, rfl, fun w => ⟨rfl, rfl⟩⟩

/-- C3, counterexample: the copy loop fails with error 7 and the removal of
the partial `.gz` succeeds; the source is retained and the `.gz` deleted,
but the function returns nil (`err = os.Remove(...)` overwrote the copy
error), not the copy error as the claim states. -/
theorem compress_swallows_copy_error :
    (compressAndCloseLog none (CopyOutcome.failed 7) none none).srcExists = true ∧
    (compressAndCloseLog none (CopyOutcome.failed 7) none none).gzExists = false ∧
    (compressAndCloseLog none (CopyOutcome.failed 7) none none).ret = none ∧
    (compressAndCloseLog none (CopyOutcome.failed 7) none none).ret ≠ some 7 := by
  decide

/-- C3, amended: on a copy failure other than end-of-input the partial
`.gz` is deleted and the source retained, but the value returned is the
result of that deletion (nil when it succeeds), the copy error having been
logged only; on success the source is deleted.  Whenever the relevant
deletion succeeds, exactly one of the source and the `.gz` remains. -/
theorem compress_exactly_one_file_remains (e : Nat) (rs rt : Option Nat) :
    ((compressAndCloseLog none (CopyOutcome.failed e) none rs).srcExists = true ∧
     (compressAndCloseLog none (CopyOutcome.failed e) none rs).gzExists = false ∧
     (compressAndCloseLog none (CopyOutcome.failed e) none rs).ret = none) ∧
    ((compressAndCloseLog none CopyOutcome.eofReached rt none).srcExists = false ∧
     (compressAndCloseLog none CopyOutcome.eofReached rt none).gzExists = true ∧
     (compressAndCloseLog none CopyOutcome.eofReached rt none).ret = none) := by
  exact ⟨⟨rfl, rfl, rfl⟩, ⟨rfl, rfl, rfl⟩⟩

/-- C7, counterexample: on a successful compression run the close calls
happen in the order source file, gzip writer, target file (lines 525-527),
not gzip writer, target file, source file as the claim states. -/
theorem compress_close_order_source_first :
    (compressAndCloseLog none CopyOutcome.eofReached none none).closes
      = [CloseEvent.closeSource, CloseEvent.closeGzipWriter, CloseEvent.closeTarget] ∧
    (compressAndCloseLog none CopyOutcome.eofReached none none).closes
      ≠ [CloseEvent.closeGzipWriter, CloseEvent.closeTarget, CloseEvent.closeSource] := by
  decide

/-- C7, amended: whenever the target `.gz` opened successfully, the three
handles are closed in the order source file, gzip writer, target file,
regardless of the copy outcome and of removal failures. -/
theorem compress_close_order (copy : CopyOutcome) (rt rs : Option Nat) :
    (compressAndCloseLog none copy rt rs).closes
      = [CloseEvent.closeSource, CloseEvent.closeGzipWriter, CloseEvent.closeTarget] := by
  cases copy <;> cases rt <;> cases rs <;> rfl

/-- C8: the claim (and the doc comment at lines 154-156) says the
`FlushTimeoutSec` default is 0, meaning the shutdown flush is never
aborted; the struct tag at line 204 (`default:"5"`) makes the binder store
5 seconds when the option is absent. -/
theorem flushTimeout_default_is_five :
    configuredFlushTimeoutSec none = 5 ∧ (5 : Nat) ≠ 0 := by
  decide

/-- Helper for C9: once the stat cache holds `s`, every `Size()` call
returns `s` whatever the file's current size is. -/
theorem sizeCalls_cached (s : Int) (rs : List (Option Int)) :
    sizeCalls ⟨some s⟩ rs = rs.map (fun _ => s) := by
  induction rs with
  | nil => rfl
  | cons r rs ih => simpa [sizeCalls, diskWriterSize, getStats] using ih

/-- C9: `Size()` caches its first successful stat for the life of the
writer: after one success (through `Size` or `IsAccessible`), every later
`Size()` call returns that first value regardless of the stat results the
file would now report; before any cache exists, a failing stat makes
`Size()` return 0 without caching. -/
theorem diskWriter_size_is_cached (s : Int) (rs : List (Option Int)) :
    sizeCalls ⟨some s⟩ rs = rs.map (fun _ => s) ∧
    sizeCalls ⟨none⟩ (some s :: rs) = s :: rs.map (fun _ => s) ∧
    diskWriterSize ⟨none⟩ none = (0, ⟨none⟩) ∧
    (isAccessible ⟨none⟩ (some s)).2 = ⟨some s⟩ ∧
    sizeCalls ((isAccessible ⟨none⟩ (some s)).2) rs = rs.map (fun _ => s) := by
  refine ⟨sizeCalls_cached s rs, ?_, rfl, rfl, sizeCalls_cached s rs⟩
  simpa [sizeCalls, diskWriterSize, getStats] using sizeCalls_cached s rs

/-- C5: with a positive total-size limit and a positive rotation size
threshold, `filePruner.Configure` subtracts the threshold expressed in
MiB (`sizeByte >> 20`) from the limit; if that leaves ≤ 0 the policy
degrades to `pruneCount = 1, pruneSize = 0`, otherwise the reduced limit
is kept. -/
theorem pruner_configure_reserves_headroom (pc ps sb : Int)
    (hps : 0 < ps) (hsb : 0 < sb) :
    (ps - sb / 2 ^ 20 ≤ 0 → filePrunerConfigure pc ps sb = (1, 0)) ∧
    (0 < ps - sb / 2 ^ 20 →
      filePrunerConfigure pc ps sb = (pc, ps - sb / 2 ^ 20)) := by
  unfold filePrunerConfigure
  rw [if_pos ⟨hps, hsb⟩]
  constructor <;> intro h
  · rw [if_pos h]
  · rw [if_neg (by omega)]

/-- C5, witness: `pruneSize = 3 MiB` (in config units), threshold 1 MiB of
bytes: `2^20 >> 20 = 1` is subtracted, leaving 2. -/
theorem pruner_configure_reserves_headroom_witness :
    filePrunerConfigure 7 3 (2 ^ 20) = (7, 3 - 2 ^ 20 / 2 ^ 20) :=
  (pruner_configure_reserves_headroom 7 3 (2 ^ 20) (by decide) (by decide)).2
    (by decide)

/-- Helper: splitting a string with no colon yields a single part. -/
theorem splitOnColonAux_no_colon (cs : List Char) (acc : List Char)
    (h : ':' ∉ cs) : splitOnColonAux cs acc = [acc.reverse ++ cs] := by
  induction cs generalizing acc with
  | nil => simp [splitOnColonAux]
  | cons c cs ih =>
      have hc : ¬ c = ':' := fun he => h (by simp [he])
      have h' : ':' ∉ cs := fun hm => h (List.mem_cons_of_mem _ hm)
      simp [splitOnColonAux, hc, ih _ h']

/-- Helper: a split never produces an empty list of parts. -/
theorem splitOnColonAux_ne_nil (cs acc : List Char) :
    splitOnColonAux cs acc ≠ [] := by
  induction cs generalizing acc with
  | nil => simp [splitOnColonAux]
  | cons c cs ih =>
      by_cases hc : c = ':'
      · simp [splitOnColonAux, hc]
      · simp only [splitOnColonAux, hc, if_false]
        exact ih _

/-- Helper: a string containing a colon splits into at least two parts. -/
theorem splitOnColonAux_colon_mem (cs : List Char) (acc : List Char)
    (h : ':' ∈ cs) : 2 ≤ (splitOnColonAux cs acc).length := by
  induction cs generalizing acc with
  | nil => cases h
  | cons c cs ih =>
      by_cases hc : c = ':'
      · simp only [splitOnColonAux, hc, if_true, List.length_cons]
        have hne := splitOnColonAux_ne_nil cs []
        have : 0 < (splitOnColonAux cs []).length :=
          List.length_pos.mpr hne
        omega
      · have h' : ':' ∈ cs := by
          rcases List.mem_cons.mp h with h1 | h2
          · exact absurd h1.symm hc
          · exact h2
        simp only [splitOnColonAux, hc, if_false]
        exact ih _ h'

/-- C10: a non-empty `Rotation/At` value with no `':'` makes `Configure`
index `parts[1]` of a one-element split, an index-out-of-range panic
(modelled as `none`) rather than a returned error; whenever the value
contains a `':'` the split has at least two parts and configuration is
defined. -/
theorem configure_rotateAt_needs_colon (s : List Char) (hne : s ≠ [])
    (hnc : ':' ∉ s) :
    configureRotateAt s = none ∧
    ∀ t : List Char, ':' ∈ t → (configureRotateAt t).isSome = true := by
  constructor
  · unfold configureRotateAt
    rw [if_neg hne]
    have hs : splitOnColon s = [s] := by
      simpa [splitOnColon] using splitOnColonAux_no_colon s [] hnc
    rw [hs]
  · intro t ht
    have hne' : t ≠ [] := by
      rintro rfl
      cases ht
    unfold configureRotateAt
    rw [if_neg hne']
    have h2 : 2 ≤ (splitOnColon t).length :=
      splitOnColonAux_colon_mem t [] ht
    cases hsp : splitOnColon t with
    | nil => rw [hsp] at h2; simp at h2
    | cons p0 tl =>
        cases tl with
        | nil => rw [hsp] at h2; simp at h2
        | cons p1 rest => rfl

/-- C10, witness: `Rotation/At = "12"` panics; `Rotation/At = "1:2"` is
defined. -/
theorem configure_rotateAt_needs_colon_witness :
    configureRotateAt ['1', '2'] = none ∧
    (configureRotateAt ['1', ':', '2']).isSome = true :=
  ⟨(configure_rotateAt_needs_colon ['1', '2'] (by decide) (by decide)).1,
   (configure_rotateAt_needs_colon ['1', '2'] (by decide) (by decide)).2
     ['1', ':', '2'] (by decide)⟩

/-- Helper: when no matching entry's `counter + 1` overflows a `uint64`
(a fortiori when each stays below 2^63), the `maxSuffix` loop accumulator
folds by `max`. -/
theorem maxSuffixLoop_acc (sig : List Char) (files : List (List Char))
    (acc : Nat)
    (H : ∀ n ∈ files, sig.isPrefixOf n = true →
      fileCounter sig n + 1 < 2 ^ 63) :
    maxSuffixLoop sig files acc = max acc (maxSuffixLoop sig files 0) := by
  induction files generalizing acc with
  | nil => simp [maxSuffixLoop]
  | cons name rest ih =>
      have Hrest : ∀ n ∈ rest, sig.isPrefixOf n = true →
          fileCounter sig n + 1 < 2 ^ 63 :=
        fun n hn => H n (List.mem_cons_of_mem _ hn)
      by_cases hp : sig.isPrefixOf name
      · have h1 : fileCounter sig name + 1 < 2 ^ 63 :=
          H name (List.mem_cons_self _ _) hp
        have hmod : (fileCounter sig name + 1) % U64
            = fileCounter sig name + 1 :=
          Nat.mod_eq_of_lt (lt_of_lt_of_le h1 (by norm_num [U64]))
        simp only [maxSuffixLoop, hp, if_true, Nat.zero_le, ite_true, hmod]
        rw [ih _ Hrest, ih (fileCounter sig name + 1) Hrest]
        simp only [Nat.max_def]
        split_ifs <;> omega
      · simp only [maxSuffixLoop, hp, if_false]
        exact ih acc Hrest

/-- Helper: under the same no-overflow bound, `maxSuffix` equals the fold
of `counter + 1` over the entries sharing the signature prefix. -/
theorem maxSuffix_eq (sig : List Char) (files : List (List Char))
    (H : ∀ n ∈ files, sig.isPrefixOf n = true →
      fileCounter sig n + 1 < 2 ^ 63) :
    maxSuffix sig files =
      ((files.filter (fun n => sig.isPrefixOf n)).map
        (fun n => fileCounter sig n + 1)).foldr max 0 := by
  induction files with
  | nil => rfl
  | cons name rest ih =>
      have Hrest : ∀ n ∈ rest, sig.isPrefixOf n = true →
          fileCounter sig n + 1 < 2 ^ 63 :=
        fun n hn => H n (List.mem_cons_of_mem _ hn)
      unfold maxSuffix at *
      by_cases hp : sig.isPrefixOf name
      · have h1 : fileCounter sig name + 1 < 2 ^ 63 :=
          H name (List.mem_cons_self _ _) hp
        have hmod : (fileCounter sig name + 1) % U64
            = fileCounter sig name + 1 :=
          Nat.mod_eq_of_lt (lt_of_lt_of_le h1 (by norm_num [U64]))
        simp only [maxSuffixLoop, hp, if_true, Nat.zero_le, ite_true, hmod]
        rw [maxSuffixLoop_acc sig rest _ Hrest, ih Hrest]
        simp [List.filter_cons, hp]
      · simp only [maxSuffixLoop, hp, if_false]
        rw [ih Hrest]
        simp [List.filter_cons, hp]

/-- Helper: a fold of `max` over naturals vanishes iff every entry does. -/
theorem foldr_max_eq_zero_iff (l : List Nat) :
    l.foldr max 0 = 0 ↔ ∀ x ∈ l, x = 0 := by
  induction l with
  | nil => simp
  | cons a l ih =>
      simp only [List.foldr_cons, List.mem_cons]
      constructor
      · intro h
        have ha : a = 0 ∧ l.foldr max 0 = 0 := by
          constructor <;> omega
        intro x hx
        rcases hx with rfl | hx
        · exact ha.1
        · exact (ih.mp ha.2) x hx
      · intro h
        have ha : a = 0 := h a (Or.inl rfl)
        have hl : l.foldr max 0 = 0 := ih.mpr fun x hx => h x (Or.inr hx)
        omega

/-- Helper: each entry is bounded by the fold of `max`. -/
theorem le_foldr_max (l : List Nat) (x : Nat) (hx : x ∈ l) :
    x ≤ l.foldr max 0 := by
  induction l with
  | nil => cases hx
  | cons a l ih =>
      rcases List.mem_cons.mp hx with rfl | h
      · exact Nat.le_max_left _ _
      · exact le_trans (ih h) (Nat.le_max_right _ _)

/-- Helper: folding `max` over successors is the successor of the fold,
for a non-empty list. -/
theorem foldr_max_map_succ (l : List Nat) (hl : l ≠ []) :
    (l.map (fun c => c + 1)).foldr max 0 = l.foldr max 0 + 1 := by
  induction l with
  | nil => cases hl rfl
  | cons a l ih =>
      cases l with
      | nil => simp
      | cons b l' =>
          simp only [List.map_cons, List.foldr_cons] at *
          rw [ih (by simp)]
          simp only [Nat.max_def]
          split_ifs <;> omega

/-- Helper: the fold of `max` over naturals is 0 or one of the entries. -/
theorem foldr_max_mem (l : List Nat) :
    l.foldr max 0 = 0 ∨ l.foldr max 0 ∈ l := by
  induction l with
  | nil => exact Or.inl rfl
  | cons a l ih =>
      simp only [List.foldr_cons]
      rcases Nat.le_total (l.foldr max 0) a with h | h
      · rw [Nat.max_eq_left h]
        exact Or.inr (List.mem_cons_self _ _)
      · rw [Nat.max_eq_right h]
        rcases ih with h0 | hmem
        · exact Or.inl h0
        · exact Or.inr (List.mem_cons_of_mem _ hmem)

/-- C4, counterexample: with the single directory entry
`f_18446744073709551615` sharing the signature prefix `f`, the parsed
counter is 2^64 - 1 and the `uint64` increment `counter + 1` wraps to 0,
so the chosen filename carries no counter component even though a file
with the prefix exists — refuting "absent exactly when no file with that
prefix exists" (and the chosen value is not greater than the maximum
counter found). -/
theorem rotated_counter_wraps :
    chooseRotName [Char.ofNat 102]
        [[Char.ofNat 102, Char.ofNat 95, Char.ofNat 49, Char.ofNat 56,
          Char.ofNat 52, Char.ofNat 52, Char.ofNat 54, Char.ofNat 55,
          Char.ofNat 52, Char.ofNat 52, Char.ofNat 48, Char.ofNat 55,
          Char.ofNat 51, Char.ofNat 55, Char.ofNat 48, Char.ofNat 57,
          Char.ofNat 53, Char.ofNat 53, Char.ofNat 49, Char.ofNat 54,
          Char.ofNat 49, Char.ofNat 53]] = RotName.plain ∧
    (List.isPrefixOf [Char.ofNat 102]
        [Char.ofNat 102, Char.ofNat 95, Char.ofNat 49, Char.ofNat 56,
         Char.ofNat 52, Char.ofNat 52, Char.ofNat 54, Char.ofNat 55,
         Char.ofNat 52, Char.ofNat 52, Char.ofNat 48, Char.ofNat 55,
         Char.ofNat 51, Char.ofNat 55, Char.ofNat 48, Char.ofNat 57,
         Char.ofNat 53, Char.ofNat 53, Char.ofNat 49, Char.ofNat 54,
         Char.ofNat 49, Char.ofNat 53]) = true ∧
    fileCounter [Char.ofNat 102]
        [Char.ofNat 102, Char.ofNat 95, Char.ofNat 49, Char.ofNat 56,
         Char.ofNat 52, Char.ofNat 52, Char.ofNat 54, Char.ofNat 55,
         Char.ofNat 52, Char.ofNat 52, Char.ofNat 48, Char.ofNat 55,
         Char.ofNat 51, Char.ofNat 55, Char.ofNat 48, Char.ofNat 57,
         Char.ofNat 53, Char.ofNat 53, Char.ofNat 49, Char.ofNat 54,
         Char.ofNat 49, Char.ofNat 53] = 2 ^ 64 - 1 := by
  decide

/-- C4, amended: the counter arithmetic is `uint64` and the rendered value
is `int(maxSuffix)`.  Provided every matching entry's counter `c`
satisfies `c + 1 < 2^63` (no `uint64` wrap, non-negative `int64`
rendering), the counter component is absent exactly when no directory
entry shares the `<name>_<timestamp>` signature prefix, and when present
it equals the maximum counter found on such entries plus one — the
smallest integer strictly greater than every counter present. -/
theorem rotated_counter_is_max_plus_one (sig : List Char)
    (files : List (List Char))
    (H : ∀ n ∈ files, sig.isPrefixOf n = true →
      fileCounter sig n + 1 < 2 ^ 63) :
    (chooseRotName sig files = RotName.plain ↔
      ∀ n ∈ files, ¬ sig.isPrefixOf n = true) ∧
    ∀ k, chooseRotName sig files = RotName.counted k →
      k = (maxMatchingCounter sig files : Int) + 1 ∧
      ∀ n ∈ files, sig.isPrefixOf n = true → (fileCounter sig n : Int) < k := by
  have hzero : maxSuffix sig files = 0 ↔
      (files.filter (fun n => sig.isPrefixOf n)) = [] := by
    rw [maxSuffix_eq sig files H, foldr_max_eq_zero_iff]
    constructor
    · intro h
      by_contra hne
      rcases List.exists_mem_of_ne_nil _ hne with ⟨n, hn⟩
      have := h (fileCounter sig n + 1) (List.mem_map_of_mem _ hn)
      omega
    · intro h
      rw [h]
      simp
  have hval : files.filter (fun n => sig.isPrefixOf n) ≠ [] →
      maxSuffix sig files = maxMatchingCounter sig files + 1 := by
    intro hne
    rw [maxSuffix_eq sig files H]
    unfold maxMatchingCounter
    have hmapeq :
        (files.filter (fun n => sig.isPrefixOf n)).map
            (fun n => fileCounter sig n + 1)
          = ((files.filter (fun n => sig.isPrefixOf n)).map
              (fun n => fileCounter sig n)).map (fun c => c + 1) := by
      rw [List.map_map]
      rfl
    rw [hmapeq, foldr_max_map_succ]
    simpa using hne
  have hbound : maxMatchingCounter sig files + 1 < 2 ^ 63 ∨
      maxMatchingCounter sig files = 0 := by
    unfold maxMatchingCounter
    rcases foldr_max_mem ((files.filter (fun n => sig.isPrefixOf n)).map
        (fun n => fileCounter sig n)) with h0 | hmem
    · exact Or.inr h0
    · rcases List.mem_map.mp hmem with ⟨n, hn, heq⟩
      rcases List.mem_filter.mp hn with ⟨hnf, hp⟩
      exact Or.inl (heq ▸ H n hnf hp)
  constructor
  · unfold chooseRotName
    constructor
    · intro h
      by_cases hms : maxSuffix sig files = 0
      · intro n hn hpn
        have hmem : n ∈ files.filter (fun m => sig.isPrefixOf m) :=
          List.mem_filter.mpr ⟨hn, hpn⟩
        rw [hzero.mp hms] at hmem
        cases hmem
      · rw [if_neg hms] at h
        cases h
    · intro h
      have hfil : files.filter (fun n => sig.isPrefixOf n) = [] :=
        List.filter_eq_nil_iff.mpr fun n hn => by
          simpa using h n hn
      rw [hzero.mpr hfil]
      simp
  · intro k hk
    unfold chooseRotName at hk
    by_cases hms : maxSuffix sig files = 0
    · rw [if_pos hms] at hk
      cases hk
    · rw [if_neg hms] at hk
      have hne : files.filter (fun n => sig.isPrefixOf n) ≠ [] := by
        intro h
        exact hms (hzero.mpr h)
      have hv := hval hne
      have hlt : maxSuffix sig files < 2 ^ 63 := by
        rcases hbound with hb | hb
        · rw [hv]
          exact hb
        · rw [hv, hb]
          norm_num
      have hk' : k = toInt64 (maxSuffix sig files) := by
        cases hk
        rfl
      have htoi : toInt64 (maxSuffix sig files)
          = (maxSuffix sig files : Int) := by
        unfold toInt64
        rw [if_pos hlt]
      refine ⟨?_, ?_⟩
      · rw [hk', htoi, hv]
        push_cast
        ring
      · intro n hn hpn
        have hle : fileCounter sig n ≤ maxMatchingCounter sig files :=
          le_foldr_max _ _
            (List.mem_map_of_mem _ (List.mem_filter.mpr ⟨hn, hpn⟩))
        rw [hk', htoi, hv]
        push_cast
        omega

/-- C4, witness: with existing entries `log_2.l` (counter 2) and `x`, the
no-overflow bound holds and the chosen name carries counter 3 = 2 + 1. -/
theorem rotated_counter_witness :
    (3 : Int) = (maxMatchingCounter
        [Char.ofNat 108, Char.ofNat 111, Char.ofNat 103]
        [[Char.ofNat 108, Char.ofNat 111, Char.ofNat 103, Char.ofNat 95,
          Char.ofNat 50, Char.ofNat 46, Char.ofNat 108],
         [Char.ofNat 120]] : Int) + 1 :=
  ((rotated_counter_is_max_plus_one
      [Char.ofNat 108, Char.ofNat 111, Char.ofNat 103]
      [[Char.ofNat 108, Char.ofNat 111, Char.ofNat 103, Char.ofNat 95,
        Char.ofNat 50, Char.ofNat 46, Char.ofNat 108],
       [Char.ofNat 120]] (by decide)).2 3 (by decide)).1

/-- C6: with only count-based pruning enabled (limit `c > 0`) and every
deletion succeeding, `Prune` deletes exactly the oldest `len - c` files of
the ascending listing (none when `len ≤ c`): the survivors are
`files.drop (files.length - c)`, so at most `c` matching files remain and
at most `c + 1` counting the currently-open file. -/
theorem prune_by_count_keeps_newest (p : FilePruner)
    (removeFails : List Char → Bool) (files : List FileInfo)
    (pruneDate : Int) (c : Nat)
    (hh : p.pruneHours ≤ 0) (hs : p.pruneSize ≤ 0)
    (hc : p.pruneCount = (c : Int)) (hcpos : 0 < c)
    (hok : ∀ f ∈ files.take (files.length - c), removeFails f.name = false) :
    filePrunerPrune p removeFails files pruneDate
        = files.drop (files.length - c) ∧
    (filePrunerPrune p removeFails files pruneDate).length ≤ c ∧
    (filePrunerPrune p removeFails files pruneDate).length + 1 ≤ c + 1 := by
  have hmain : filePrunerPrune p removeFails files pruneDate
      = files.drop (files.length - c) := by
    simp only [filePrunerPrune]
    rw [if_neg (by omega), if_pos (by rw [hc]; exact_mod_cast hcpos),
      if_neg (by omega), hc]
    simp only [pruneByCount]
    by_cases hlen : (files.length : Int) - (c : Int) < 1
    · rw [if_pos hlen]
      have h0 : files.length - c = 0 := by omega
      rw [h0, List.drop_zero]
    · rw [if_neg hlen]
      have htn : ((files.length : Int) - (c : Int)).toNat
          = files.length - c := by omega
      rw [htn]
      have hfil : (files.take (files.length - c)).filter
          (fun f => removeFails f.name) = [] :=
        List.filter_eq_nil_iff.mpr fun f hf => by simp [hok f hf]
      rw [hfil, List.nil_append]
  refine ⟨hmain, ?_, ?_⟩ <;>
    · rw [hmain, List.length_drop]
      omega

/-- C6, witness: pruner `{count = 2}` on a three-file listing deletes
exactly the oldest file and keeps the two newest. -/
theorem prune_by_count_witness :
    filePrunerPrune ⟨2, 0, 0⟩ (fun _ => false)
        [⟨[Char.ofNat 97], 1, 1⟩, ⟨[Char.ofNat 98], 1, 2⟩,
         ⟨[Char.ofNat 99], 1, 3⟩] 0
      = [⟨[Char.ofNat 97], 1, 1⟩, ⟨[Char.ofNat 98], 1, 2⟩,
         ⟨[Char.ofNat 99], 1, 3⟩].drop 1 ∧
    (filePrunerPrune ⟨2, 0, 0⟩ (fun _ => false)
        [⟨[Char.ofNat 97], 1, 1⟩, ⟨[Char.ofNat 98], 1, 2⟩,
         ⟨[Char.ofNat 99], 1, 3⟩] 0).length ≤ 2 ∧
    (filePrunerPrune ⟨2, 0, 0⟩ (fun _ => false)
        [⟨[Char.ofNat 97], 1, 1⟩, ⟨[Char.ofNat 98], 1, 2⟩,
         ⟨[Char.ofNat 99], 1, 3⟩] 0).length + 1 ≤ 2 + 1 :=
  prune_by_count_keeps_newest ⟨2, 0, 0⟩ (fun _ => false)
    [⟨[Char.ofNat 97], 1, 1⟩, ⟨[Char.ofNat 98], 1, 2⟩,
     ⟨[Char.ofNat 99], 1, 3⟩] 0 2
    (by decide) (by decide) (by decide) (by decide) (by decide)

end Gollum
